import Mathlib

/-!
Verification development for the self-indexing registry
(src/kibana/utils/registry/registry.js).

The Registry is an Array subclass that maintains lazily cached derived
views (group-by, index-by, order-by) over its contents, duplexing every
structure-mutating operation to a plain backing array `this.raw` and
invalidating all view caches after each mutation.

The shallow embedding below models:
  * records as an opaque type `R`, resolved keys as a type `K`;
  * the external path resolver (`pathGetter`, repository code not included
    here) as a pure environment `env : String → R → K`;
  * the external name inflectors as pure functions `String → String`;
  * the lodash view builders `_.groupBy` / `_.indexBy` / `_.sortBy`
    (external library code) as pure list functions, per their documented
    semantics (insertion-order keys, last-write-wins, stable ascending sort);
  * the registry instance as an explicit state record, with the getter /
    setter pair, `_clearIndices`, the wrapped Array mutators, and the
    constructor as state-passing functions;
  * the JS cache convention: the cache variable holds `undefined` / `false`
    (absent) or the built view value; builders always return objects or
    arrays, which are truthy, so `Option` is an exact model of the
    `cache || (cache = op(...))` idiom;
  * the module-private `CLEAR_CACHE` sentinel, compared by reference
    identity in the setter, as a dedicated constructor that no outside
    value can equal.
-/

namespace KibanaRegistry

/-- The kind of a declared view: group-by, index-by, or order-by. -/
inductive ViewKind where
  | group
  | index
  | order
deriving DecidableEq

/-- A view declaration: its kind, the source path it resolves on each
record, and the derived public property name. -/
structure Decl where
  kind : ViewKind
  path : String
  publicName : String
deriving DecidableEq

/-- A materialized view value: a grouping (key to list of records), an
index (key to single record), or an ordered sequence of records. -/
inductive ViewValue (R K : Type) where
  | grouped (m : List (K × List R))
  | indexed (m : List (K × R))
  | ordered (l : List R)
deriving DecidableEq

/-- Modelled from the spec: one step of the external `_.groupBy` builder —
append record `r` to the bucket of key `k`, keys kept in first-insertion
order (JS object key order). -/
def addToGroup [DecidableEq K] (k : K) (r : R) : List (K × List R) → List (K × List R)
  | [] => [(k, [r])]
  | (k', rs) :: t => if k = k' then (k', rs ++ [r]) :: t else (k', rs) :: addToGroup k r t

/-- Modelled from the spec: the external `_.groupBy` builder (partition by
resolved key, preserving record order within each bucket). -/
def groupBy [DecidableEq K] (key : R → K) (l : List R) : List (K × List R) :=
  l.foldl (fun acc r => addToGroup (key r) r acc) []

/-- Modelled from the spec: one step of the external `_.indexBy` builder —
bind key `k` to record `r`, overwriting in place any earlier binding of the
same key (JS `result[key] = value`). -/
def upsert [DecidableEq K] (k : K) (r : R) : List (K × R) → List (K × R)
  | [] => [(k, r)]
  | (k', r') :: t => if k = k' then (k', r) :: t else (k', r') :: upsert k r t

/-- Modelled from the spec: the external `_.indexBy` builder (one record
per resolved key, later records overwriting earlier ones). -/
def indexBy [DecidableEq K] (key : R → K) (l : List R) : List (K × R) :=
  l.foldl (fun acc r => upsert (key r) r acc) []

/-- Key lookup in an association list (JS property read on the built
index/group object). -/
def lookupKey [DecidableEq K] (k : K) : List (K × R) → Option R
  | [] => none
  | (k', r) :: t => if k = k' then some r else lookupKey k t

/-- The comparison used by the order-by builder: ascending by resolved key. -/
def keyLE [LinearOrder K] (key : R → K) (a b : R) : Prop :=
  key a ≤ key b

instance [LinearOrder K] (key : R → K) : DecidableRel (keyLE (R := R) key) :=
  fun a b => inferInstanceAs (Decidable (key a ≤ key b))

instance [LinearOrder K] (key : R → K) : IsTotal R (keyLE key) :=
  ⟨fun a b => le_total (key a) (key b)⟩

instance [LinearOrder K] (key : R → K) : IsTrans R (keyLE key) :=
  ⟨fun _ _ _ h1 h2 => le_trans h1 h2⟩

/-- Modelled from the spec: the external `_.sortBy` builder — a stable sort
ascending by resolved key (lodash decorates each element with its index and
breaks ties on it, which is extensionally a stable insertion sort). -/
def sortBy [LinearOrder K] (key : R → K) (l : List R) : List R :=
  l.insertionSort (keyLE key)

/-- The six Array mutator methods that registry.js wraps
(`'pop push shift splice unshift reverse'`). -/
inductive MethodName where
  | pop
  | push
  | shift
  | splice
  | unshift
  | reverse
deriving DecidableEq

/-- A concrete invocation of a wrapped mutator, with its arguments. -/
inductive MutOp (R : Type) where
  | pop
  | push (items : List R)
  | shift
  | unshift (items : List R)
  | splice (start : Int) (deleteCount : Int) (items : List R)
  | reverse
deriving DecidableEq

/-- The method a mutator invocation targets. -/
def MutOp.name : MutOp R → MethodName
  | .pop => .pop
  | .push _ => .push
  | .shift => .shift
  | .unshift _ => .unshift
  | .splice _ _ _ => .splice
  | .reverse => .reverse

/-- The value an un-wrapped Array primitive returns: the removed element
(pop/shift, `undefined` on empty), the new length (push/unshift), the
removed slice (splice), or the array object itself (reverse). -/
inductive PrimResult (R : Type) where
  | element (e : Option R)
  | length (n : Nat)
  | elements (es : List R)
  | arrayRef (l : List R)
deriving DecidableEq

/-- The un-wrapped `Array.prototype` primitive applied to a sequence:
returns the primitive's result together with the mutated sequence.
`splice` clamps per the ECMAScript algorithm: a negative start counts from
the end (floored at 0), the delete count is clamped to `[0, len − start]`. -/
def primOp : MutOp R → List R → PrimResult R × List R
  | .pop, l => (.element l.getLast?, l.dropLast)
  | .push items, l => (.length (l.length + items.length), l ++ items)
  | .shift, l => (.element l.head?, l.tail)
  | .unshift items, l => (.length (items.length + l.length), items ++ l)
  | .splice start deleteCount items, l =>
      let len := l.length
      let s := if start < 0 then ((len : Int) + start).toNat else min start.toNat len
      let d := min deleteCount.toNat (len - s)
      (.elements ((l.drop s).take d), l.take s ++ items ++ l.drop (s + d))
  | .reverse, l => (.arrayRef l.reverse, l.reverse)

/-- One declared view installed on the registry: its declaration plus the
closure-private `cache` variable (`none` models the falsy absent states
`undefined` / `false`; `some v` the built, truthy view value). -/
structure ViewSlot (R K : Type) where
  decl : Decl
  cache : Option (ViewValue R K)
deriving DecidableEq

/-- A registry instance: the public Array contents (`this`), the plain
backing array (`this.raw`), the declared views in declaration order
(`_indexNames` with their caches), and which wrapped methods exist as
callable capabilities (all of them, unless the immutable branch deleted
`push` and `splice`). -/
structure RegState (R K : Type) where
  seq : List R
  raw : List R
  views : List (ViewSlot R K)
  avail : MethodName → Bool

/-- The builder `op(self.raw, from)` bound to a declaration by
`_setupIndices`: groupBy, indexBy or sortBy with the path's getter. -/
def buildView [DecidableEq K] [LinearOrder K] (env : String → R → K) (d : Decl)
    (raw : List R) : ViewValue R K :=
  match d.kind with
  | .group => .grouped (groupBy (env d.path) raw)
  | .index => .indexed (indexBy (env d.path) raw)
  | .order => .ordered (sortBy (env d.path) raw)

/-- `Registry.prototype._clearIndices`: assign the `CLEAR_CACHE` sentinel
to every declared view name, setting each closure cache to the absent
state. -/
def clearIndices (s : RegState R K) : RegState R K :=
  { s with views := s.views.map (fun sl => { sl with cache := none }) }

/-- A wrapped mutator: if the method still exists as a capability, apply
the original primitive to the public sequence, run `_clearIndices`, then
apply the original primitive to `this.raw` and return its result.  When the
immutable branch has deleted the method, the capability is absent (calling
`undefined` fails): modelled as `none`. -/
def applyMutator (op : MutOp R) (s : RegState R K) :
    Option (PrimResult R × RegState R K) :=
  if s.avail op.name then
    let afterSeq := { s with seq := (primOp op s.seq).2 }
    let cleared := clearIndices afterSeq
    some ((primOp op s.raw).1, { cleared with raw := (primOp op s.raw).2 })
  else
    none

/-- The result of reading a declared view's public name: the value the
getter returns, the registry state afterwards, and whether the builder ran
during this read. -/
structure ReadResult (R K : Type) where
  value : Option (ViewValue R K)
  state : RegState R K
  built : Bool

/-- The getter installed by `_setupIndices`:
`return cache || (cache = op(self.raw, from));` — return the cached value
when present (builders return truthy objects/arrays), otherwise build from
the current raw array and store the result in the cache. -/
def readView [DecidableEq K] [LinearOrder K] (env : String → R → K)
    (s : RegState R K) (i : Nat) : ReadResult R K :=
  match s.views[i]? with
  | none => ⟨none, s, false⟩
  | some sl =>
    match sl.cache with
    | some v => ⟨some v, s, false⟩
    | none =>
      let v := buildView env sl.decl s.raw
      ⟨some v, { s with views := s.views.set i { sl with cache := some v } }, true⟩

/-- A value assigned to a view's public name: either the module-private
`CLEAR_CACHE` sentinel (a unique object compared by reference identity,
which no outside caller can obtain), or any value an outside caller can
construct or pass. -/
inductive WriteVal (V : Type) where
  | clearCacheSentinel
  | outside (v : V)

/-- The errors the registry raises (both are `TypeError`s in JS; the spec
names them ConfigurationError and ImmutableViewError): redefining an
already-defined non-configurable property in `_setupIndices`, and
assigning a non-sentinel value through a view's setter. -/
inductive RegError where
  | defineConflict (name : String)
  | setComputedIndex (name : String)
deriving DecidableEq

/-- The setter installed by `_setupIndices`: the `CLEAR_CACHE` sentinel
marks the cache absent; any other value throws
`TypeError(to + ' can not be set, it is a computed index of values')`,
leaving the state untouched. -/
def writeView (s : RegState R K) (i : Nat) (v : WriteVal V) :
    Except RegError Unit × RegState R K :=
  match s.views[i]? with
  | none => (.ok (), s)
  | some sl =>
    match v with
    | .clearCacheSentinel =>
      (.ok (), { s with views := s.views.set i { sl with cache := none } })
    | .outside _ => (.error (.setComputedIndex sl.decl.publicName), s)

/-- The constructor configuration: paths to group by, index by and order
by, the optional initial dataset, and the immutable flag. -/
structure Config (R : Type) where
  group : List String
  index : List String
  order : List String
  initialSet : List R
  immutable : Bool

/-- The declarations the constructor makes, in source order: group views,
then index views (both named by the `by`-inflector), then order views
(named by the `in…Order` inflector). -/
def declsOf (inflectI inflectO : String → String) (cfg : Config R) : List Decl :=
  cfg.group.map (fun p => ⟨.group, p, inflectI p⟩)
    ++ cfg.index.map (fun p => ⟨.index, p, inflectI p⟩)
    ++ cfg.order.map (fun p => ⟨.order, p, inflectO p⟩)

/-- `Object.defineProperty` on a non-configurable accessor throws when the
name is already defined: walking the declarations in order, a public name
already seen raises the conflict error. -/
def checkNames : List Decl → List String → Except RegError Unit
  | [], _ => .ok ()
  | d :: ds, seen =>
    if d.publicName ∈ seen then .error (.defineConflict d.publicName)
    else checkNames ds (d.publicName :: seen)

/-- The immutable branch of the constructor deletes exactly
`this.push` and `this.splice` (`this.push = this.splice = undefined`);
the other four wrapped methods remain callable. -/
def immutableAvailable : MethodName → Bool
  | .push => false
  | .splice => false
  | _ => true

/-- The `Registry` constructor: set up the indices (failing on a derived
public name collision), seed with `config.initialSet` through the wrapped
`push` (which duplexes to `raw` and clears the caches), then, if
`config.immutable`, delete `push` and `splice`. -/
def mkRegistry (inflectI inflectO : String → String) (cfg : Config R) :
    Except RegError (RegState R K) :=
  let decls := declsOf inflectI inflectO cfg
  match checkNames decls [] with
  | .error e => .error e
  | .ok _ =>
    let s0 : RegState R K :=
      { seq := [], raw := [], views := decls.map (fun d => ⟨d, none⟩),
        avail := fun _ => true }
    let s1 := match applyMutator (MutOp.push cfg.initialSet) s0 with
      | some p => p.2
      | none => s0
    .ok { s1 with avail := if cfg.immutable then immutableAvailable else fun _ => true }

/-- A sequence of attempted mutator invocations; an invocation whose
method capability is absent leaves the state unchanged. -/
def runOps (ops : List (MutOp R)) (s : RegState R K) : RegState R K :=
  ops.foldl (fun st op =>
    match applyMutator op st with
    | some p => p.2
    | none => st) s

/-! Concrete instantiations used to exercise the theorems below.  Records
are (id, payload) pairs of naturals, resolved keys are naturals, and the
inflectors are simple tag-prepending functions. -/

/-- A concrete by-inflector (the real one also capitalizes; naming is
external and cosmetic). -/
def inflBy : String → String := fun p => "by" ++ p

/-- A concrete in…Order-inflector. -/
def inflInOrder : String → String := fun p => "in" ++ p ++ "Order"

/-- A concrete path environment resolving every path to a record's first
component. -/
def envFst : String → (Nat × Nat) → Nat := fun _ r => r.1

/-- A mutable configuration with one index view and one order view on the
path "id", seeded with three records, two of which share the key 1. -/
def cfgA : Config (Nat × Nat) :=
  ⟨[], ["id"], ["id"], [(1, 100), (2, 200), (1, 300)], false⟩

/-- The registry state the constructor produces from `cfgA`. -/
def stateA : RegState (Nat × Nat) Nat :=
  { seq := [(1, 100), (2, 200), (1, 300)]
    raw := [(1, 100), (2, 200), (1, 300)]
    views := [⟨⟨.index, "id", "byid"⟩, none⟩, ⟨⟨.order, "id", "inidOrder"⟩, none⟩]
    avail := fun _ => true }

/-- `stateA` after a wrapped `pop`. -/
def stateA2 : RegState (Nat × Nat) Nat :=
  { seq := [(1, 100), (2, 200)]
    raw := [(1, 100), (2, 200)]
    views := [⟨⟨.index, "id", "byid"⟩, none⟩, ⟨⟨.order, "id", "inidOrder"⟩, none⟩]
    avail := fun _ => true }

/-- An immutable configuration with no views, seeded with one record. -/
def cfgImm : Config Nat := ⟨[], [], [], [7], true⟩

/-- The registry state the constructor produces from `cfgImm`. -/
def stateImm : RegState Nat Nat :=
  { seq := [7], raw := [7], views := [], avail := immutableAvailable }

/-- A configuration whose group and index declarations derive the same
public name "bytype". -/
def cfgDup : Config Nat := ⟨["type"], ["type"], [], [], false⟩

/-! Helper lemmas shared by the claim theorems. -/

/-- A wrapped mutator whose method capability exists: its full effect,
stated against the un-wrapped primitive. -/
theorem applyMutator_avail (op : MutOp R) (s : RegState R K)
    (h : s.avail op.name = true) :
    applyMutator op s = some ((primOp op s.raw).1,
      { seq := (primOp op s.seq).2, raw := (primOp op s.raw).2,
        views := s.views.map (fun sl => { sl with cache := none }),
        avail := s.avail }) := by
  simp [applyMutator, clearIndices, h]

/-- A wrapped mutator succeeds only when its method capability exists. -/
theorem applyMutator_some_avail (op : MutOp R) (s : RegState R K)
    (res : PrimResult R) (s' : RegState R K)
    (h : applyMutator op s = some (res, s')) : s.avail op.name = true := by
  by_contra hna
  rw [applyMutator, if_neg hna] at h
  exact Option.noConfusion h

/-- A successful wrapped mutator keeps the public sequence and the raw
mirror in lockstep. -/
theorem applyMutator_mirror (op : MutOp R) (s : RegState R K)
    (res : PrimResult R) (s' : RegState R K)
    (h : applyMutator op s = some (res, s')) (hm : s.seq = s.raw) :
    s'.seq = s'.raw := by
  have ha := applyMutator_some_avail op s res s' h
  rw [applyMutator_avail op s ha] at h
  obtain ⟨-, rfl⟩ := Prod.mk.injEq .. ▸ Option.some.injEq .. ▸ h
  simp [hm]

/-- Characterization of a successful construction: the state the
constructor returns, field by field. -/
theorem mkRegistry_ok_state (inflectI inflectO : String → String) (cfg : Config R)
    (s : RegState R K) (h : mkRegistry inflectI inflectO cfg = .ok s) :
    s = { seq := cfg.initialSet, raw := cfg.initialSet,
          views := (declsOf inflectI inflectO cfg).map (fun d => ⟨d, none⟩),
          avail := if cfg.immutable then immutableAvailable else fun _ => true } := by
  rw [mkRegistry] at h
  cases hc : checkNames (declsOf inflectI inflectO cfg) [] with
  | error e => rw [hc] at h; exact Except.noConfusion h
  | ok u =>
    rw [hc] at h
    simp only [applyMutator, if_pos, clearIndices, primOp, List.map_map,
      Except.ok.injEq] at h
    rw [← h]
    simp

/-- The mirror invariant is preserved by any sequence of attempted
mutator invocations. -/
theorem runOps_mirror (ops : List (MutOp R)) (s : RegState R K)
    (hm : s.seq = s.raw) : (runOps ops s).seq = (runOps ops s).raw := by
  induction ops generalizing s with
  | nil => exact hm
  | cons op t ih =>
    show (runOps t _).seq = (runOps t _).raw
    cases hap : applyMutator op s with
    | none => simpa [runOps, hap] using ih s hm
    | some p =>
      have := applyMutator_mirror op s p.1 p.2 (by rw [hap]) hm
      simpa [runOps, hap] using ih p.2 this

/-- C2: for every sequence of wrapped structure-mutating operations applied
to a collection (including the initial seeding with config.initialSet),
after each operation completes the RawMirror (this.raw) and the public
sequence have identical length and identical elements in identical order.
The state after each operation of a sequence is (runOps prefix s) for the
corresponding prefix, so quantifying over all op lists covers every
intermediate point, and ops = [] covers the freshly constructed state. -/
theorem mirror_consistency (inflectI inflectO : String → String) (cfg : Config R)
    (s : RegState R K) (h : mkRegistry inflectI inflectO cfg = .ok s)
    (ops : List (MutOp R)) :
    (runOps ops s).seq = (runOps ops s).raw := by
  have hs := mkRegistry_ok_state inflectI inflectO cfg s h
  exact runOps_mirror ops s (by rw [hs])

/-- Witness for C2 at a concrete configuration and operation sequence. -/
theorem mirror_consistency_witness :
    mkRegistry (K := Nat) inflBy inflInOrder cfgA = .ok stateA ∧
    (runOps [MutOp.pop, MutOp.reverse, MutOp.push [(9, 9)]] stateA).seq
      = (runOps [MutOp.pop, MutOp.reverse, MutOp.push [(9, 9)]] stateA).raw :=
  ⟨rfl, mirror_consistency inflBy inflInOrder cfgA stateA rfl _⟩

/-- C6: every wrapped structure-mutating operation, called with any
arguments, returns exactly the value that the corresponding un-wrapped
Array primitive returns when applied with the same arguments to RawMirror
(pop/shift return the removed element, push/unshift the new length, splice
the removed slice, reverse the array object), after first applying the same
mutation to the public sequence and invalidating all views. -/
theorem wrapped_mutator_returns_raw_primitive (op : MutOp R) (s : RegState R K)
    (h : s.avail op.name = true) :
    applyMutator op s = some ((primOp op s.raw).1,
      { seq := (primOp op s.seq).2, raw := (primOp op s.raw).2,
        views := s.views.map (fun sl => { sl with cache := none }),
        avail := s.avail }) :=
  applyMutator_avail op s h

/-- Witness for C6: a wrapped pop on a concrete registry returns the last
raw element, exactly as the primitive applied to the raw array does. -/
theorem wrapped_mutator_returns_raw_primitive_witness :
    stateA.avail (MutOp.pop (R := Nat × Nat)).name = true ∧
    applyMutator MutOp.pop stateA = some ((primOp MutOp.pop stateA.raw).1,
      { seq := (primOp MutOp.pop stateA.seq).2, raw := (primOp MutOp.pop stateA.raw).2,
        views := stateA.views.map (fun sl => { sl with cache := none }),
        avail := stateA.avail }) :=
  ⟨rfl, wrapped_mutator_returns_raw_primitive MutOp.pop stateA rfl⟩

/-- Unfolding of the installed getter when the cache is absent: build from
the current raw array, store, and report that the builder ran. -/
theorem readView_of_cache_none [DecidableEq K] [LinearOrder K] (env : String → R → K)
    (s : RegState R K) (i : Nat) (sl : ViewSlot R K)
    (h : s.views[i]? = some sl) (hc : sl.cache = none) :
    readView env s i = ⟨some (buildView env sl.decl s.raw),
      { s with views := s.views.set i ⟨sl.decl, some (buildView env sl.decl s.raw)⟩ },
      true⟩ := by
  obtain ⟨d, c⟩ := sl
  cases hc
  simp [readView, h]

/-- Unfolding of the installed getter when the cache is present: return the
cached value, untouched state, no build. -/
theorem readView_cached [DecidableEq K] [LinearOrder K] (env : String → R → K)
    (s : RegState R K) (i : Nat) (sl : ViewSlot R K) (v : ViewValue R K)
    (h : s.views[i]? = some sl) (hc : sl.cache = some v) :
    readView env s i = ⟨some v, s, false⟩ := by
  obtain ⟨d, c⟩ := sl
  cases hc
  simp [readView, h]

/-- C1: immediately after every wrapped structure-mutating operation, every
declared view's cache is absent, and reading any declared view on the
resulting state returns the value obtained by running that view's builder
fresh against the current RawMirror content. -/
theorem invalidate_then_recompute [DecidableEq K] [LinearOrder K]
    (env : String → R → K) (op : MutOp R) (s : RegState R K)
    (res : PrimResult R) (s' : RegState R K)
    (h : applyMutator op s = some (res, s')) (i : Nat) (sl : ViewSlot R K)
    (hv : s'.views[i]? = some sl) :
    sl.cache = none ∧
    (readView env s' i).value = some (buildView env sl.decl s'.raw) := by
  have ha := applyMutator_some_avail op s res s' h
  rw [applyMutator_avail op s ha, Option.some.injEq, Prod.mk.injEq] at h
  obtain ⟨-, rfl⟩ := h
  have hcache : sl.cache = none := by
    have hv' := hv
    simp only [List.getElem?_map, Option.map_eq_some'] at hv'
    obtain ⟨a, -, rfl⟩ := hv'
    rfl
  exact ⟨hcache, by rw [readView_of_cache_none env _ i sl hv hcache]⟩

/-- Witness for C1: after popping from a concrete registry, the index
view's cache is absent and reading it rebuilds from the shrunken raw
array. -/
theorem invalidate_then_recompute_witness :
    applyMutator MutOp.pop stateA = some (PrimResult.element (some (1, 300)), stateA2) ∧
    stateA2.views[0]? = some ⟨⟨.index, "id", "byid"⟩, none⟩ ∧
    ((⟨⟨.index, "id", "byid"⟩, none⟩ : ViewSlot (Nat × Nat) Nat).cache = none ∧
      (readView envFst stateA2 0).value
        = some (buildView envFst (⟨⟨.index, "id", "byid"⟩, none⟩ : ViewSlot (Nat × Nat) Nat).decl stateA2.raw)) :=
  ⟨rfl, rfl,
    invalidate_then_recompute envFst MutOp.pop stateA (PrimResult.element (some (1, 300)))
      stateA2 rfl 0 ⟨⟨.index, "id", "byid"⟩, none⟩ rfl⟩

/-- Counterexample to C3: a registry constructed immutable still has pop as
a callable capability, and invoking it removes the last element, so the
content changes after construction.  The constructor only deletes push and
splice. -/
theorem immutable_pop_still_mutates :
    (mkRegistry (R := Nat) (K := Nat) inflBy inflInOrder cfgImm).map
      (fun s => (s.seq, s.avail .pop,
        (applyMutator .pop s).map (fun p => (p.1, p.2.seq))))
      = .ok ([7], true, some (.element (some 7), [])) := rfl

/-- C3 (amended): if a collection is constructed with the immutable flag
set, exactly the push and splice entry points are absent as callable
capabilities, so invoking either of them fails; pop, shift, unshift and
reverse remain callable, so the collection's content can still change
after construction. -/
theorem immutable_disables_only_push_and_splice (inflectI inflectO : String → String)
    (cfg : Config R) (s : RegState R K) (him : cfg.immutable = true)
    (h : mkRegistry inflectI inflectO cfg = .ok s)
    (items : List R) (a b : Int) :
    s.avail .push = false ∧ s.avail .splice = false ∧
    s.avail .pop = true ∧ s.avail .shift = true ∧
    s.avail .unshift = true ∧ s.avail .reverse = true ∧
    applyMutator (.push items) s = none ∧
    applyMutator (.splice a b items) s = none := by
  have hs := mkRegistry_ok_state inflectI inflectO cfg s h
  subst hs
  simp [applyMutator, immutableAvailable, MutOp.name, him]

/-- Witness for the amended C3 at a concrete immutable registry. -/
theorem immutable_disables_only_push_and_splice_witness :
    cfgImm.immutable = true ∧
    mkRegistry (K := Nat) inflBy inflInOrder cfgImm = .ok stateImm ∧
    (stateImm.avail .push = false ∧ stateImm.avail .splice = false ∧
      stateImm.avail .pop = true ∧ stateImm.avail .shift = true ∧
      stateImm.avail .unshift = true ∧ stateImm.avail .reverse = true ∧
      applyMutator (.push [9]) stateImm = none ∧
      applyMutator (.splice 0 1 [9]) stateImm = none) :=
  ⟨rfl, rfl,
    immutable_disables_only_push_and_splice inflBy inflInOrder cfgImm stateImm rfl rfl [9] 0 1⟩

/-- Walking the declarations succeeds only if the derived public names are
distinct from each other and from every name already seen. -/
theorem checkNames_ok_nodup (ds : List Decl) (seen : List String) (u : Unit)
    (h : checkNames ds seen = .ok u) :
    (ds.map Decl.publicName).Nodup ∧ ∀ d ∈ ds, d.publicName ∉ seen := by
  induction ds generalizing seen with
  | nil => simp
  | cons d t ih =>
    rw [checkNames] at h
    by_cases hd : d.publicName ∈ seen
    · rw [if_pos hd] at h; exact Except.noConfusion h
    · rw [if_neg hd] at h
      obtain ⟨hnd, hseen⟩ := ih (d.publicName :: seen) h
      refine ⟨List.nodup_cons.mpr ⟨?_, hnd⟩, ?_⟩
      · intro hmem
        obtain ⟨d', hd', he⟩ := List.mem_map.mp hmem
        exact (hseen d' hd') (he ▸ List.mem_cons_self _ _)
      · intro d' hd'
        rcases List.mem_cons.mp hd' with rfl | hmem
        · exact hd
        · exact fun hc => (hseen d' hmem) (List.mem_cons_of_mem _ hc)

/-- Walking the declarations can only fail with a name-conflict error. -/
theorem checkNames_error_shape (ds : List Decl) (seen : List String) (e : RegError)
    (h : checkNames ds seen = .error e) : ∃ n, e = .defineConflict n := by
  induction ds generalizing seen with
  | nil => exact Except.noConfusion h
  | cons d t ih =>
    rw [checkNames] at h
    by_cases hd : d.publicName ∈ seen
    · rw [if_pos hd] at h
      exact ⟨d.publicName, (Except.error.injEq .. ▸ h).symm⟩
    · rw [if_neg hd] at h
      exact ih _ h

/-- C4: for every configuration in which two group/index/order declarations
derive the same public view name, construction fails synchronously with the
name-conflict error (the ConfigurationError of the spec) and no collection
state is returned. -/
theorem duplicate_name_fails_construction (inflectI inflectO : String → String)
    (cfg : Config R)
    (hdup : ¬ ((declsOf inflectI inflectO cfg).map Decl.publicName).Nodup) :
    ∃ n, mkRegistry (R := R) (K := K) inflectI inflectO cfg
      = .error (.defineConflict n) := by
  cases hc : checkNames (declsOf inflectI inflectO cfg) [] with
  | ok u => exact absurd (checkNames_ok_nodup _ _ u hc).1 hdup
  | error e =>
    obtain ⟨n, rfl⟩ := checkNames_error_shape _ _ e hc
    exact ⟨n, by rw [mkRegistry, hc]⟩

/-- Witness for C4: a group and an index declaration both deriving
"bytype" make construction fail. -/
theorem duplicate_name_fails_construction_witness :
    ¬ ((declsOf inflBy inflInOrder cfgDup).map Decl.publicName).Nodup ∧
    ∃ n, mkRegistry (R := Nat) (K := Nat) inflBy inflInOrder cfgDup
      = .error (.defineConflict n) :=
  ⟨by decide, duplicate_name_fails_construction inflBy inflInOrder cfgDup (by decide)⟩

/-- C5: assigning any outside-constructible value to a declared view's
public name fails synchronously with the computed-index error (the
ImmutableViewError of the spec) and returns the state unchanged, so the
view's cache and all subsequent reads are exactly as if the assignment had
not been attempted; the only accepted write is the module-private
CLEAR_CACHE sentinel, compared by reference identity. -/
theorem view_write_rejected (s : RegState R K) (i : Nat) (sl : ViewSlot R K)
    (h : s.views[i]? = some sl) (x : V) :
    writeView s i (WriteVal.outside x)
      = (.error (.setComputedIndex sl.decl.publicName), s) ∧
    (writeView s i (WriteVal.clearCacheSentinel : WriteVal V)).1 = .ok () := by
  simp [writeView, h]

/-- Witness for C5: writing the number 42 to the concrete registry's index
view fails and leaves the state unchanged. -/
theorem view_write_rejected_witness :
    stateA.views[0]? = some ⟨⟨.index, "id", "byid"⟩, none⟩ ∧
    (writeView stateA 0 (WriteVal.outside (42 : Nat))
        = (.error (.setComputedIndex "byid"), stateA) ∧
      (writeView stateA 0 (WriteVal.clearCacheSentinel : WriteVal Nat)).1 = .ok ()) :=
  ⟨rfl, view_write_rejected stateA 0 ⟨⟨.index, "id", "byid"⟩, none⟩ rfl 42⟩

/-- Looking up a key after an upsert: the upserted key maps to the new
record, every other key is unaffected. -/
theorem lookupKey_upsert [DecidableEq K] (k k' : K) (r : R) (t : List (K × R)) :
    lookupKey k (upsert k' r t) = if k = k' then some r else lookupKey k t := by
  induction t with
  | nil => simp [upsert, lookupKey]
  | cons hd tl ih =>
    obtain ⟨k'', r''⟩ := hd
    by_cases h1 : k' = k''
    · subst h1
      by_cases h2 : k = k' <;> simp [upsert, lookupKey, h2]
    · by_cases h2 : k = k''
      · subst h2
        have h1' : ¬ k = k' := fun h => h1 h.symm
        simp [upsert, lookupKey, h1, h1']
      · simp [upsert, lookupKey, h1, h2, ih]

/-- indexBy over a sequence extended at the end is an upsert of the new
record into the index of the prefix. -/
theorem indexBy_concat [DecidableEq K] (key : R → K) (l : List R) (r : R) :
    indexBy key (l ++ [r]) = upsert (key r) r (indexBy key l) := by
  simp [indexBy, List.foldl_append]

/-- Last-write-wins: the index binds each key to the last record of the
sequence resolving to it (and to nothing if no record does). -/
theorem lookupKey_indexBy [DecidableEq K] (key : R → K) (l : List R) (k : K) :
    lookupKey k (indexBy key l)
      = (l.filter (fun r => decide (key r = k))).getLast? := by
  induction l using List.reverseRecOn with
  | nil => simp [indexBy, lookupKey]
  | append_singleton l r ih =>
    rw [indexBy_concat, lookupKey_upsert, List.filter_append]
    by_cases hk : k = key r
    · simp [if_pos hk, List.filter_cons, hk.symm, List.getLast?_concat]
    · rw [if_neg hk, ih]
      have hk' : decide (key r = k) = false := by
        simp only [decide_eq_false_iff_not]
        exact fun h => hk h.symm
      simp [List.filter_cons, hk']

/-- C7: reading an index-by-key view yields a mapping in which every key is
bound to the record occurring last among the records resolving to it in the
collection's current order (last-write-wins).  Stated for any key, which in
particular covers keys shared by two or more records. -/
theorem index_view_last_write_wins [DecidableEq K] [LinearOrder K]
    (env : String → R → K) (s : RegState R K) (i : Nat) (sl : ViewSlot R K)
    (h : s.views[i]? = some sl) (hc : sl.cache = none)
    (hk : sl.decl.kind = .index) (k : K) :
    (readView env s i).value = some (.indexed (indexBy (env sl.decl.path) s.raw)) ∧
    lookupKey k (indexBy (env sl.decl.path) s.raw)
      = (s.raw.filter (fun r => decide (env sl.decl.path r = k))).getLast? := by
  refine ⟨?_, lookupKey_indexBy _ _ _⟩
  rw [readView_of_cache_none env s i sl h hc]
  simp [buildView, hk]

/-- Witness for C7: on the concrete registry the records (1,100) and
(1,300) share the key 1, and the index view binds 1 to the later (1,300). -/
theorem index_view_last_write_wins_witness :
    stateA.views[0]? = some ⟨⟨.index, "id", "byid"⟩, none⟩ ∧
    ((⟨⟨.index, "id", "byid"⟩, none⟩ : ViewSlot (Nat × Nat) Nat).cache = none ∧
      (⟨⟨.index, "id", "byid"⟩, none⟩ : ViewSlot (Nat × Nat) Nat).decl.kind = .index) ∧
    ((readView envFst stateA 0).value
        = some (.indexed (indexBy (envFst "id") stateA.raw)) ∧
      lookupKey 1 (indexBy (envFst "id") stateA.raw)
        = (stateA.raw.filter (fun r => decide (envFst "id" r = 1))).getLast?) :=
  ⟨rfl, ⟨rfl, rfl⟩,
    index_view_last_write_wins envFst stateA 0 ⟨⟨.index, "id", "byid"⟩, none⟩ rfl rfl rfl 1⟩

/-- Filtering on a key commutes with ordered insertion: the inserted record
lands in front of every record with the same key (every record it is placed
behind has a strictly smaller key). -/
theorem filter_orderedInsert [DecidableEq K] [LinearOrder K] (key : R → K) (k : K) (r : R)
    (l : List R) :
    (List.orderedInsert (keyLE key) r l).filter (fun x => decide (key x = k))
      = if key r = k
        then r :: l.filter (fun x => decide (key x = k))
        else l.filter (fun x => decide (key x = k)) := by
  induction l with
  | nil =>
    by_cases hrk : key r = k <;>
      simp [List.orderedInsert, List.filter_cons, hrk]
  | cons x t ih =>
    by_cases hle : keyLE key r x
    · rw [List.orderedInsert_of_le _ _ hle]
      by_cases hrk : key r = k <;>
        simp [List.filter_cons, hrk]
    · have hlt : key x < key r := lt_of_not_ge hle
      have : List.orderedInsert (keyLE key) r (x :: t)
          = x :: List.orderedInsert (keyLE key) r t := by
        simp [List.orderedInsert, hle]
      rw [this]
      by_cases hrk : key r = k
      · have hxk : key x ≠ k := fun hx => absurd (hrk ▸ hx ▸ hlt) (lt_irrefl _)
        simp [List.filter_cons, ih, hrk, hxk]
      · by_cases hxk : key x = k <;>
          simp [List.filter_cons, ih, hrk, hxk]

/-- Stability of the order-by builder: for every key, the records resolving
to that key appear in the sorted output in exactly their original relative
order. -/
theorem sortBy_filter_stable [DecidableEq K] [LinearOrder K] (key : R → K) (k : K) (l : List R) :
    (sortBy key l).filter (fun x => decide (key x = k))
      = l.filter (fun x => decide (key x = k)) := by
  induction l with
  | nil => rfl
  | cons r t ih =>
    show (List.orderedInsert (keyLE key) r (sortBy key t)).filter _ = _
    rw [filter_orderedInsert, ih]
    by_cases hrk : key r = k <;> simp [List.filter_cons, hrk]

/-- The order-by builder returns a permutation of its input. -/
theorem sortBy_perm [LinearOrder K] (key : R → K) (l : List R) :
    (sortBy key l).Perm l :=
  List.perm_insertionSort (keyLE key) l

/-- The order-by builder returns a sequence ascending in resolved key. -/
theorem sortBy_pairwise [LinearOrder K] (key : R → K) (l : List R) :
    (sortBy key l).Pairwise (keyLE key) :=
  List.sorted_insertionSort (keyLE key) l

/-- C8: reading an order-by-key view returns a new sequence containing all
records of the collection (a permutation of the raw mirror) sorted
ascending by resolved key, records with equal resolved keys keeping their
original relative order (stable sort, stated as filter-invariance for every
key); the underlying sequences are not reordered by the read. -/
theorem order_view_stable_sorted [DecidableEq K] [LinearOrder K]
    (env : String → R → K) (s : RegState R K) (i : Nat) (sl : ViewSlot R K)
    (h : s.views[i]? = some sl) (hc : sl.cache = none)
    (hk : sl.decl.kind = .order) (k : K) :
    (readView env s i).value = some (.ordered (sortBy (env sl.decl.path) s.raw)) ∧
    (readView env s i).state.seq = s.seq ∧
    (readView env s i).state.raw = s.raw ∧
    (sortBy (env sl.decl.path) s.raw).Perm s.raw ∧
    (sortBy (env sl.decl.path) s.raw).Pairwise (keyLE (env sl.decl.path)) ∧
    (sortBy (env sl.decl.path) s.raw).filter (fun r => decide (env sl.decl.path r = k))
      = s.raw.filter (fun r => decide (env sl.decl.path r = k)) := by
  rw [readView_of_cache_none env s i sl h hc]
  exact ⟨by simp [buildView, hk], rfl, rfl, sortBy_perm _ _, sortBy_pairwise _ _,
    sortBy_filter_stable _ _ _⟩

/-- Witness for C8: the concrete registry's order view sorts the three
records ascending by key, keeping (1,100) before the equal-keyed (1,300). -/
theorem order_view_stable_sorted_witness :
    stateA.views[1]? = some ⟨⟨.order, "id", "inidOrder"⟩, none⟩ ∧
    ((⟨⟨.order, "id", "inidOrder"⟩, none⟩ : ViewSlot (Nat × Nat) Nat).cache = none ∧
      (⟨⟨.order, "id", "inidOrder"⟩, none⟩ : ViewSlot (Nat × Nat) Nat).decl.kind = .order) ∧
    ((readView envFst stateA 1).value
        = some (.ordered (sortBy (envFst "id") stateA.raw)) ∧
      (readView envFst stateA 1).state.seq = stateA.seq ∧
      (readView envFst stateA 1).state.raw = stateA.raw ∧
      (sortBy (envFst "id") stateA.raw).Perm stateA.raw ∧
      (sortBy (envFst "id") stateA.raw).Pairwise (keyLE (envFst "id")) ∧
      (sortBy (envFst "id") stateA.raw).filter (fun r => decide (envFst "id" r = 1))
        = stateA.raw.filter (fun r => decide (envFst "id" r = 1))) :=
  ⟨rfl, ⟨rfl, rfl⟩,
    order_view_stable_sorted envFst stateA 1 ⟨⟨.order, "id", "inidOrder"⟩, none⟩ rfl rfl rfl 1⟩

/-- C9: reading a declared view twice in a row with no intervening mutation
returns the identical cached value both times — the second read returns the
ReadResult with the same value and same state and performs no build (so the
builder runs at most once across the two reads), and the value returned is
the very value stored in the view's cache cell. -/
theorem view_read_idempotent [DecidableEq K] [LinearOrder K]
    (env : String → R → K) (s : RegState R K) (i : Nat)
    (h : i < s.views.length) :
    readView env (readView env s i).state i
      = ⟨(readView env s i).value, (readView env s i).state, false⟩ ∧
    ((readView env s i).state.views[i]?).map ViewSlot.cache
      = some ((readView env s i).value) := by
  have hsl : s.views[i]? = some s.views[i] := List.getElem?_eq_getElem h
  cases hcache : (s.views[i]).cache with
  | some v =>
    rw [readView_cached env s i _ v hsl hcache]
    exact ⟨readView_cached env s i _ v hsl hcache, by rw [hsl]; simp [hcache]⟩
  | none =>
    rw [readView_of_cache_none env s i _ hsl hcache]
    have hset : (s.views.set i
          ⟨(s.views[i]).decl, some (buildView env (s.views[i]).decl s.raw)⟩)[i]?
        = some ⟨(s.views[i]).decl, some (buildView env (s.views[i]).decl s.raw)⟩ :=
      List.getElem?_set_self (by simpa using h)
    exact ⟨readView_cached env _ i _ _ hset rfl, by rw [hset]; simp⟩

/-- Witness for C9 on the concrete registry's index view. -/
theorem view_read_idempotent_witness :
    0 < stateA.views.length ∧
    (readView envFst (readView envFst stateA 0).state 0
        = ⟨(readView envFst stateA 0).value, (readView envFst stateA 0).state, false⟩ ∧
      ((readView envFst stateA 0).state.views[0]?).map ViewSlot.cache
        = some ((readView envFst stateA 0).value)) :=
  ⟨by decide, view_read_idempotent envFst stateA 0 (by decide)⟩

/-- C10: reading a declared view modifies only that view's own cache,
transitioning it from absent to the computed value; the public sequence,
the raw mirror, the method capabilities and every other view's slot are
unchanged by the read. -/
theorem view_read_frame [DecidableEq K] [LinearOrder K]
    (env : String → R → K) (s : RegState R K) (i : Nat) (sl : ViewSlot R K)
    (h : s.views[i]? = some sl) (hc : sl.cache = none) (j : Nat) (hj : j ≠ i) :
    (readView env s i).state.seq = s.seq ∧
    (readView env s i).state.raw = s.raw ∧
    (readView env s i).state.avail = s.avail ∧
    (readView env s i).state.views[j]? = s.views[j]? ∧
    (readView env s i).state.views[i]?
      = some ⟨sl.decl, some (buildView env sl.decl s.raw)⟩ ∧
    (readView env s i).value = some (buildView env sl.decl s.raw) := by
  have hlen : i < s.views.length := (List.getElem?_eq_some_iff.mp h).1
  rw [readView_of_cache_none env s i sl h hc]
  exact ⟨rfl, rfl, rfl, List.getElem?_set_ne (Ne.symm hj),
    List.getElem?_set_self hlen, rfl⟩

/-- Witness for C10: reading the concrete registry's index view leaves the
sequences, the capabilities and the order view's slot untouched. -/
theorem view_read_frame_witness :
    stateA.views[0]? = some ⟨⟨.index, "id", "byid"⟩, none⟩ ∧
    ((⟨⟨.index, "id", "byid"⟩, none⟩ : ViewSlot (Nat × Nat) Nat).cache = none ∧
      (1 : Nat) ≠ 0) ∧
    ((readView envFst stateA 0).state.seq = stateA.seq ∧
      (readView envFst stateA 0).state.raw = stateA.raw ∧
      (readView envFst stateA 0).state.avail = stateA.avail ∧
      (readView envFst stateA 0).state.views[1]? = stateA.views[1]? ∧
      (readView envFst stateA 0).state.views[0]?
        = some ⟨⟨.index, "id", "byid"⟩,
            some (buildView envFst (⟨.index, "id", "byid"⟩ : Decl) stateA.raw)⟩ ∧
      (readView envFst stateA 0).value
        = some (buildView envFst (⟨.index, "id", "byid"⟩ : Decl) stateA.raw)) :=
  ⟨rfl, ⟨rfl, by decide⟩,
    view_read_frame envFst stateA 0 ⟨⟨.index, "id", "byid"⟩, none⟩ rfl rfl 1 (by decide)⟩

end KibanaRegistry
